import Mathlib

/-!
Verification of the locale-match library (src/bcp47.rs, src/posix.rs).

Strings are modelled as byte lists (`List Nat`), since the Rust code operates on
`&str` via byte indices returned by `str::find` on ASCII delimiter characters.
Machine-integer indices are modelled as `Nat` (all indices are bounded by the
string length, far below any overflow).  Fallible operations (`str::get`,
`LanguageTag::parse`) return `Option`.  The panicking slice `&s[0..e]` is
modelled by an `Option`-returning function where `none` models the panic path.

The BCP 47 tag parser is the external `language_tags` crate, which both the
code and the specification treat as an external collaborator; the matcher is
therefore parameterised over an arbitrary parse function
`List Nat → Option LanguageTag`, and theorems quantify over it.
-/

/-- Rust `u8::to_ascii_lowercase`: maps bytes 65..90 (A..Z) to 97..122 (a..z). -/
def lowerAscii (b : Nat) : Nat := if 65 ≤ b ∧ b ≤ 90 then b + 32 else b

/-- Rust `str::eq_ignore_ascii_case`: byte-wise equality after ASCII lowercasing. -/
def asciiCaseEq (a b : List Nat) : Bool := a.map lowerAscii == b.map lowerAscii

/-- Rust `str::is_char_boundary`: true at 0; at the end of the string; and at any
index holding a byte that is not a UTF-8 continuation byte (`(b as i8) >= -0x40`). -/
def isCharBoundary (s : List Nat) (i : Nat) : Bool :=
  i == 0 ||
    match s.get? i with
    | none => i == s.length
    | some b => decide (b < 0x80 ∨ 0xC0 ≤ b)

/-- Rust `str::get(a..b)`: `some` slice iff `a ≤ b`, both endpoints are char
boundaries (which forces `b ≤ len`); otherwise `none`.  The panicking index
operation `&s[a..b]` panics exactly when this returns `none`. -/
def strSlice (s : List Nat) (a b : Nat) : Option (List Nat) :=
  if a ≤ b ∧ isCharBoundary s a ∧ isCharBoundary s b then some ((s.take b).drop a)
  else none

/-- Rust `str::find(char)` for a single ASCII character: byte index of the first
occurrence. -/
def strFind (c : Nat) : List Nat → Option Nat
  | [] => none
  | b :: rest => if b == c then some 0 else (strFind c rest).map (· + 1)

/-- A UTF-8 continuation byte (0x80..0xBF). -/
def isCont (b : Nat) : Bool := 0x80 ≤ b && b < 0xC0

/-- The consequence of UTF-8 validity used by the boundary analysis: an ASCII
byte (< 0x80) is never immediately followed by a continuation byte, because in
valid UTF-8 an ASCII byte is a complete character and the next byte starts a
new character (ASCII or a lead byte ≥ 0xC0).  Every valid UTF-8 byte sequence —
hence the byte content of every Rust `&str`, by type invariant — satisfies this
predicate, so hypotheses stated with it cover all actual inputs. -/
def asciiFollowedOk : List Nat → Bool
  | a :: b :: rest => (decide (0x80 ≤ a) || !(isCont b)) && asciiFollowedOk (b :: rest)
  | _ => true

/-- The `PosixLocale` struct of src/posix.rs: the original string plus the three
computed field-end byte indices. -/
structure PosixLocale where
  locale : List Nat
  language_end : Nat
  territory_end : Nat
  codeset_end : Nat

namespace PosixLocale

/-- `'_'` -/
def TERRITORY_DELIMITER : Nat := 95
/-- `'.'` -/
def CODESET_DELIMITER : Nat := 46
/-- `'@'` -/
def MODIFIER_DELIMITER : Nat := 64

/-- `PosixLocale::parse` (src/posix.rs lines 142-148):
`codeset_end = locale.find('@').unwrap_or(locale.len())`,
`territory_end = locale.find('.').unwrap_or(codeset_end)`,
`language_end = locale.find('_').unwrap_or(territory_end)`. -/
def parse (locale : List Nat) : PosixLocale :=
  let codeset_end := (strFind MODIFIER_DELIMITER locale).getD locale.length
  let territory_end := (strFind CODESET_DELIMITER locale).getD codeset_end
  let language_end := (strFind TERRITORY_DELIMITER locale).getD territory_end
  { locale := locale, language_end := language_end, territory_end := territory_end,
    codeset_end := codeset_end }

/-- The source's `language()` is the panicking slice `&locale[0..language_end]`;
this models it with `none` standing for the panic path. -/
def languageChecked (l : PosixLocale) : Option (List Nat) :=
  strSlice l.locale 0 l.language_end

/-- Total rendering of `language()`; agreement with `languageChecked` (i.e.
absence of the panic) is proved for all inputs below. -/
def language (l : PosixLocale) : List Nat := l.locale.take l.language_end

/-- `territory()`: `locale.get(language_end + 1..territory_end)`. -/
def territory (l : PosixLocale) : Option (List Nat) :=
  strSlice l.locale (l.language_end + 1) l.territory_end

/-- `codeset()`: `locale.get(territory_end + 1..codeset_end)`. -/
def codeset (l : PosixLocale) : Option (List Nat) :=
  strSlice l.locale (l.territory_end + 1) l.codeset_end

/-- `modifier()`: `locale.get(codeset_end + 1..)`. -/
def modifier (l : PosixLocale) : Option (List Nat) :=
  strSlice l.locale (l.codeset_end + 1) l.locale.length

/-- `into_inner()`: the original string. -/
def into_inner (l : PosixLocale) : List Nat := l.locale

end PosixLocale

/-- One iteration of the scoring loop shared by both matchers
(`match (aval, user) { (Some(a), Some(u)) if eq => score += weight, _ => {} }`). -/
def matchWeight (eq : List Nat → List Nat → Bool) (aval user : Option (List Nat))
    (weight : Nat) : Nat :=
  match aval, user with
  | some a, some u => if eq a u then weight else 0
  | _, _ => 0

/-- The POSIX score loop (src/posix.rs lines 105-118): territory 4, codeset 2,
modifier 1, compared with `eq_ignore_ascii_case`. -/
def posixScore (aval_locale user_locale : PosixLocale) : Nat :=
  matchWeight asciiCaseEq aval_locale.territory user_locale.territory 4 +
  matchWeight asciiCaseEq aval_locale.codeset user_locale.codeset 2 +
  matchWeight asciiCaseEq aval_locale.modifier user_locale.modifier 1

/-- Rust `Iterator::max_by_key`: fold keeping the later element on score ties
("If several elements are equally maximum, the last element is returned"). -/
def maxByKey (key : β → Nat) : List β → Option β
  | [] => none
  | x :: xs => some (xs.foldl (fun acc y => if key acc ≤ key y then y else acc) x)

/-- The shared selection pipeline
`.enumerate().rev().filter(pred).max_by_key(key).map(|(i, _)| i)` of both
matchers: filter the reversed enumeration, take the maximum by key (ties to the
later = originally earlier element), return its original index. -/
def selectIdx (pred : β → Bool) (key : β → Nat) (l : List β) : Option Nat :=
  (maxByKey (fun ib => key ib.2) ((l.enum.reverse).filter (fun ib => pred ib.2))).map
    (fun ib => ib.1)

namespace posix

/-- The parsed candidate list of `posix::best_matching_locale`
(`available_locales.map(PosixLocale::parse).collect()`). -/
def available_parsed_locales (available_locales : List (List Nat)) : List PosixLocale :=
  available_locales.map PosixLocale.parse

/-- The per-preference body of the `find_map` in `posix::best_matching_locale`:
filter candidates by `language().eq_ignore_ascii_case`, maximise `posixScore`. -/
def selectFor (user_locale : PosixLocale) (avail : List PosixLocale) : Option Nat :=
  selectIdx (fun aval_locale => asciiCaseEq aval_locale.language user_locale.language)
    (fun aval_locale => posixScore aval_locale user_locale) avail

/-- `posix::best_matching_locale` (src/posix.rs lines 89-122).  The final
`.map(|i| available_parsed_locales.into_iter().nth(i).unwrap().into_inner())` is
modelled with `Option.bind` and `List.get?` (the index is always in bounds). -/
def best_matching_locale (available_locales user_locales : List (List Nat)) :
    Option (List Nat) :=
  ((user_locales.map PosixLocale.parse).findSome? (fun user_locale =>
      selectFor user_locale (available_parsed_locales available_locales))).bind
    (fun i => ((available_parsed_locales available_locales).get? i).map
      PosixLocale.into_inner)

end posix

/-- The subtag view exposed by the external `language_tags::LanguageTag`
collaborator: the accessors consumed by src/bcp47.rs. -/
structure LanguageTag where
  primary_language : List Nat
  extended_language : Option (List Nat)
  script : Option (List Nat)
  region : Option (List Nat)
  variant : Option (List Nat)
  extension : Option (List Nat)
  private_use : Option (List Nat)

/-- The BCP 47 score loop (src/bcp47.rs lines 106-123): extended-language 32,
script 16, region 8, variant 4, extension 2, private-use 1, compared with `==`
(the external parser canonicalises case, making `==` case-insensitive on the
original spellings). -/
def bcp47Score (aval_tag user_tag : LanguageTag) : Nat :=
  matchWeight (fun a u => a == u) aval_tag.extended_language user_tag.extended_language 32 +
  matchWeight (fun a u => a == u) aval_tag.script user_tag.script 16 +
  matchWeight (fun a u => a == u) aval_tag.region user_tag.region 8 +
  matchWeight (fun a u => a == u) aval_tag.variant user_tag.variant 4 +
  matchWeight (fun a u => a == u) aval_tag.extension user_tag.extension 2 +
  matchWeight (fun a u => a == u) aval_tag.private_use user_tag.private_use 1

namespace bcp47

/-- The parsed candidate list of `bcp47::best_matching_locale`
(`.filter_map(|l| LanguageTag::parse(l).ok().map(|tag| (l, tag))).collect()`),
for an arbitrary external parse function `p`. -/
def available_tags (p : List Nat → Option LanguageTag)
    (available_locales : List (List Nat)) : List (List Nat × LanguageTag) :=
  available_locales.filterMap (fun l => (p l).map (fun tag => (l, tag)))

/-- The per-preference body of the `find_map` in `bcp47::best_matching_locale`:
filter candidates by `primary_language() ==`, maximise `bcp47Score`. -/
def selectFor (user_tag : LanguageTag) (avail : List (List Nat × LanguageTag)) :
    Option Nat :=
  selectIdx (fun lt => lt.2.primary_language == user_tag.primary_language)
    (fun lt => bcp47Score lt.2 user_tag) avail

/-- `bcp47::best_matching_locale` (src/bcp47.rs lines 90-127), parameterised over
the external tag parser `p`.  The final
`.map(|i| available_tags.into_iter().nth(i).unwrap().0)` is modelled with
`Option.bind` and `List.get?` (the index is always in bounds). -/
def best_matching_locale (p : List Nat → Option LanguageTag)
    (available_locales user_locales : List (List Nat)) : Option (List Nat) :=
  ((user_locales.filterMap p).findSome? (fun user_tag =>
      selectFor user_tag (available_tags p available_locales))).bind
    (fun i => ((available_tags p available_locales).get? i).map (fun lt => lt.1))

end bcp47

/-- A simple concrete instantiation of the external BCP 47 parser, used to
instantiate parser-quantified theorems at concrete inputs: rejects the empty
string and canonicalises the whole input to an ASCII-lowercase primary
language with no secondary subtags. -/
def toyParse (s : List Nat) : Option LanguageTag :=
  if s = [] then none
  else some { primary_language := s.map lowerAscii, extended_language := none,
              script := none, region := none, variant := none, extension := none,
              private_use := none }

/-- One summand of the specification's score description (§4.1 step 3): the
field's weight exactly when both sides are present and case-insensitively
equal, otherwise zero. -/
def specFieldScore (aval user : Option (List Nat)) (weight : Nat) : Nat :=
  if aval.isSome && user.isSome && asciiCaseEq (aval.getD []) (user.getD []) then weight
  else 0

/-- The POSIX score as the specification words it: the sum over the fixed
ordered secondary fields (territory 4, codeset 2, modifier 1) of
`specFieldScore`. -/
def posixSpecScore (aval_locale user_locale : PosixLocale) : Nat :=
  [(aval_locale.territory, user_locale.territory, 4),
   (aval_locale.codeset, user_locale.codeset, 2),
   (aval_locale.modifier, user_locale.modifier, 1)].foldl
    (fun s t => s + specFieldScore t.1 t.2.1 t.2.2) 0

/-- The BCP 47 score as the specification words it: the sum over the fixed
ordered secondary fields (extended-language 32, script 16, region 8, variant 4,
extension 2, private-use 1) of `specFieldScore`. -/
def bcp47SpecScore (aval_tag user_tag : LanguageTag) : Nat :=
  [(aval_tag.extended_language, user_tag.extended_language, 32),
   (aval_tag.script, user_tag.script, 16),
   (aval_tag.region, user_tag.region, 8),
   (aval_tag.variant, user_tag.variant, 4),
   (aval_tag.extension, user_tag.extension, 2),
   (aval_tag.private_use, user_tag.private_use, 1)].foldl
    (fun s t => s + specFieldScore t.1 t.2.1 t.2.2) 0

/-- Case-faithfulness of a pair of optional canonicalised subtag values: exact
equality coincides with ASCII-case-insensitive equality.  The specification
(§4.1, §6) requires the external BCP 47 parser to canonicalise case so that the
`==` comparisons of src/bcp47.rs are case-insensitive on original spellings. -/
def optCaseFaithful : Option (List Nat) → Option (List Nat) → Prop
  | some x, some y => (x == y) = asciiCaseEq x y
  | _, _ => True

/-- Modelled from the spec (§4.2): the bounded delimiter scan the specification
describes for `PosixLocale::parse` — the first `@`; the first `.` occurring
before that `@` boundary; the first `_` occurring before that `.` boundary —
returning (language_end, territory_end, codeset_end).  Defined only to be
compared against the code's `PosixLocale.parse`. -/
def boundedScanBoundaries (s : List Nat) : Nat × Nat × Nat :=
  let codeset_end := (strFind PosixLocale.MODIFIER_DELIMITER s).getD s.length
  let territory_end := (strFind PosixLocale.CODESET_DELIMITER (s.take codeset_end)).getD
    codeset_end
  let language_end := (strFind PosixLocale.TERRITORY_DELIMITER (s.take territory_end)).getD
    territory_end
  (language_end, territory_end, codeset_end)

/-- Modelled from the spec (§4.2): the language field under the bounded scan —
everything before the `_` boundary. -/
def boundedScanLanguage (s : List Nat) : List Nat :=
  s.take (boundedScanBoundaries s).1

/-- `firstIdxOr s c dflt i` states that `i` is the byte index of the first
occurrence of byte `c` in `s`, or equals `dflt` when `c` does not occur. -/
def firstIdxOr (s : List Nat) (c : Nat) (dflt : Nat) (i : Nat) : Prop :=
  (i < s.length ∧ s.getD i 0 = c ∧ ∀ j < i, s.getD j 0 ≠ c) ∨
    (i = dflt ∧ ∀ j < s.length, s.getD j 0 ≠ c)

/-! Helper lemmas. -/

theorem asciiCaseEq_refl (a : List Nat) : asciiCaseEq a a = true := by
  simp [asciiCaseEq]

theorem asciiCaseEq_of_beq {a b : List Nat} (h : (a == b) = true) :
    asciiCaseEq a b = true := by
  cases eq_of_beq h
  exact asciiCaseEq_refl a

theorem matchWeight_le_self (eq : List Nat → List Nat → Bool)
    (href : ∀ x, eq x x = true) (a u : Option (List Nat)) (w : Nat) :
    matchWeight eq a u w ≤ matchWeight eq u u w := by
  cases a with
  | none =>
    cases u with
    | none => exact Nat.le_refl _
    | some y => simp [matchWeight, href]
  | some x =>
    cases u with
    | none => exact Nat.le_refl _
    | some y =>
      simp only [matchWeight, href]
      split <;> simp

theorem bcp47Score_le_self (t u : LanguageTag) : bcp47Score t u ≤ bcp47Score u u := by
  unfold bcp47Score
  have h : ∀ (a b : Option (List Nat)) (w : Nat),
      matchWeight (fun x y : List Nat => x == y) a b w ≤
        matchWeight (fun x y : List Nat => x == y) b b w :=
    matchWeight_le_self _ (by simp)
  exact Nat.add_le_add (Nat.add_le_add (Nat.add_le_add (Nat.add_le_add (Nat.add_le_add
    (h _ _ _) (h _ _ _)) (h _ _ _)) (h _ _ _)) (h _ _ _)) (h _ _ _)

theorem posixScore_le_self (t u : PosixLocale) : posixScore t u ≤ posixScore u u := by
  unfold posixScore
  have h : ∀ (a b : Option (List Nat)) (w : Nat),
      matchWeight asciiCaseEq a b w ≤ matchWeight asciiCaseEq b b w :=
    matchWeight_le_self _ asciiCaseEq_refl
  exact Nat.add_le_add (Nat.add_le_add (h _ _ _) (h _ _ _)) (h _ _ _)


theorem foldl_max_spec {γ : Type _} (key idx : γ → Nat) :
    ∀ (xs : List γ) (z m : γ),
      xs.foldl (fun acc y => if key acc ≤ key y then y else acc) z = m →
      (∀ y ∈ xs, idx y < idx z) →
      List.Pairwise (fun a b => idx b < idx a) xs →
      (m = z ∨ m ∈ xs) ∧ key z ≤ key m ∧ (∀ y ∈ xs, key y ≤ key m) ∧
        idx m ≤ idx z ∧
        (∀ y, y = z ∨ y ∈ xs → idx y < idx m → key y < key m) := by
  intro xs
  induction xs with
  | nil =>
    intro z m hm _ _
    cases hm
    refine ⟨Or.inl rfl, Nat.le_refl _, ?_, Nat.le_refl _, ?_⟩
    · intro y hy; cases hy
    · intro y hy hlt
      rcases hy with rfl | hy
      · exact absurd hlt (Nat.lt_irrefl _)
      · cases hy
  | cons y ys ih =>
    intro z m hm hlt hpw
    rw [List.foldl_cons] at hm
    rcases List.pairwise_cons.mp hpw with ⟨hy_ys, hpw'⟩
    have hyz : idx y < idx z := hlt y (List.mem_cons_self y ys)
    by_cases hc : key z ≤ key y
    · rw [if_pos hc] at hm
      have hlt' : ∀ w ∈ ys, idx w < idx y := hy_ys
      obtain ⟨hmem, hky, hks, hidx, hstrict⟩ := ih y m hm hlt' hpw'
      refine ⟨?_, Nat.le_trans hc hky, ?_, Nat.le_trans hidx (Nat.le_of_lt hyz), ?_⟩
      · rcases hmem with rfl | h
        · exact Or.inr (List.mem_cons_self _ _)
        · exact Or.inr (List.mem_cons_of_mem _ h)
      · intro w hw
        rcases List.mem_cons.mp hw with rfl | h
        · exact hky
        · exact hks w h
      · intro w hw hwi
        rcases hw with rfl | hw
        · -- w = z: idx m ≤ idx y < idx z contradicts idx z < idx m
          exact absurd hwi (Nat.not_lt.mpr (Nat.le_of_lt (Nat.lt_of_le_of_lt hidx hyz)))
        · rcases List.mem_cons.mp hw with rfl | h
          · exact hstrict w (Or.inl rfl) hwi
          · exact hstrict w (Or.inr h) hwi
    · rw [if_neg hc] at hm
      have hlt' : ∀ w ∈ ys, idx w < idx z := fun w hw =>
        hlt w (List.mem_cons_of_mem _ hw)
      obtain ⟨hmem, hkz, hks, hidx, hstrict⟩ := ih z m hm hlt' hpw'
      have hyk : key y < key m := Nat.lt_of_lt_of_le (Nat.lt_of_not_le hc) hkz
      refine ⟨?_, hkz, ?_, hidx, ?_⟩
      · rcases hmem with rfl | h
        · exact Or.inl rfl
        · exact Or.inr (List.mem_cons_of_mem _ h)
      · intro w hw
        rcases List.mem_cons.mp hw with rfl | h
        · exact Nat.le_of_lt hyk
        · exact hks w h
      · intro w hw hwi
        rcases hw with rfl | hw
        · exact hstrict w (Or.inl rfl) hwi
        · rcases List.mem_cons.mp hw with rfl | h
          · exact hyk
          · exact hstrict w (Or.inr h) hwi

theorem maxByKey_spec {γ : Type _} (key idx : γ → Nat) (l : List γ) (m : γ)
    (hpw : List.Pairwise (fun a b => idx b < idx a) l)
    (hm : maxByKey key l = some m) :
    m ∈ l ∧ (∀ y ∈ l, key y ≤ key m) ∧ (∀ y ∈ l, idx y < idx m → key y < key m) := by
  cases l with
  | nil => simp [maxByKey] at hm
  | cons z xs =>
    simp only [maxByKey, Option.some.injEq] at hm
    rcases List.pairwise_cons.mp hpw with ⟨hz, hpw'⟩
    obtain ⟨hmem, hkz, hks, _, hstrict⟩ := foldl_max_spec key idx xs z m hm hz hpw'
    refine ⟨?_, ?_, ?_⟩
    · rcases hmem with rfl | h
      · exact List.mem_cons_self _ _
      · exact List.mem_cons_of_mem _ h
    · intro w hw
      rcases List.mem_cons.mp hw with rfl | h
      · exact hkz
      · exact hks w h
    · intro w hw hwi
      rcases List.mem_cons.mp hw with rfl | h
      · exact hstrict w (Or.inl rfl) hwi
      · exact hstrict w (Or.inr h) hwi

theorem maxByKey_ne_nil {γ : Type _} (key : γ → Nat) (z : γ) (xs : List γ) :
    (maxByKey key (z :: xs)).isSome := by
  simp [maxByKey]

theorem mem_enumFrom_fst_le {α : Type _} :
    ∀ (l : List α) (n : Nat) (p : Nat × α), p ∈ List.enumFrom n l → n ≤ p.1 := by
  intro l
  induction l with
  | nil => intro n p hp; cases hp
  | cons x xs ih =>
    intro n p hp
    rcases List.mem_cons.mp hp with rfl | h
    · exact Nat.le_refl n
    · exact Nat.le_of_succ_le (ih (n + 1) p h)

theorem pairwise_enumFrom {α : Type _} :
    ∀ (l : List α) (n : Nat),
      List.Pairwise (fun p q : Nat × α => p.1 < q.1) (List.enumFrom n l) := by
  intro l
  induction l with
  | nil => intro n; exact List.Pairwise.nil
  | cons x xs ih =>
    intro n
    refine List.pairwise_cons.mpr ⟨?_, ih (n + 1)⟩
    intro p hp
    exact Nat.lt_of_lt_of_le (Nat.lt_succ_self n) (mem_enumFrom_fst_le xs (n + 1) p hp)

theorem pairwise_filter_rev_enum {α : Type _} (l : List α) (pr : Nat × α → Bool) :
    List.Pairwise (fun p q : Nat × α => q.1 < p.1) ((l.enum.reverse).filter pr) := by
  refine List.Pairwise.sublist (List.filter_sublist _) ?_
  rw [List.pairwise_reverse]
  exact pairwise_enumFrom l 0

theorem mem_enum_iff_get? {α : Type _} {l : List α} {i : Nat} {b : α} :
    (i, b) ∈ l.enum ↔ l.get? i = some b := by
  rw [List.mk_mem_enum_iff_getElem?, List.get?_eq_getElem?]

theorem selectIdx_eq_some {β : Type _} (pred : β → Bool) (key : β → Nat) (l : List β)
    (i : Nat) (h : selectIdx pred key l = some i) :
    ∃ b, l.get? i = some b ∧ pred b = true ∧
      ∀ j c, l.get? j = some c → pred c = true →
        key c ≤ key b ∧ (j < i → key c < key b) := by
  unfold selectIdx at h
  rcases Option.map_eq_some'.mp h with ⟨m, hm, hm1⟩
  have hpw := pairwise_filter_rev_enum l (fun ib => pred ib.2)
  obtain ⟨hmem, hdom, hstrict⟩ :=
    maxByKey_spec (fun ib => key ib.2) (fun ib => ib.1) _ m hpw hm
  have hmem' := List.mem_filter.mp hmem
  have hmenum : (m.1, m.2) ∈ l.enum := List.mem_reverse.mp hmem'.1
  refine ⟨m.2, ?_, hmem'.2, ?_⟩
  · rw [← hm1]; exact mem_enum_iff_get?.mp hmenum
  · intro j c hj hc
    have hjc : (j, c) ∈ (l.enum.reverse).filter (fun ib => pred ib.2) :=
      List.mem_filter.mpr ⟨List.mem_reverse.mpr (mem_enum_iff_get?.mpr hj), hc⟩
    refine ⟨hdom (j, c) hjc, fun hji => ?_⟩
    exact hstrict (j, c) hjc (by rw [hm1]; exact hji)

theorem selectIdx_isSome {β : Type _} (pred : β → Bool) (key : β → Nat) (l : List β)
    (j : Nat) (c : β) (hj : l.get? j = some c) (hc : pred c = true) :
    (selectIdx pred key l).isSome := by
  unfold selectIdx
  have hjc : (j, c) ∈ (l.enum.reverse).filter (fun ib => pred ib.2) :=
    List.mem_filter.mpr ⟨List.mem_reverse.mpr (mem_enum_iff_get?.mpr hj), hc⟩
  cases hL : (l.enum.reverse).filter (fun ib => pred ib.2) with
  | nil => rw [hL] at hjc; cases hjc
  | cons z zs => simp [maxByKey, hL]

theorem selectIdx_eq_none_of {β : Type _} (pred : β → Bool) (key : β → Nat) (l : List β)
    (h : ∀ c ∈ l, pred c = false) : selectIdx pred key l = none := by
  unfold selectIdx
  have hnil : (l.enum.reverse).filter (fun ib => pred ib.2) = [] := by
    rw [List.filter_eq_nil_iff]
    intro p hp
    have hpl : p.2 ∈ l := by
      have := mem_enum_iff_get?.mp
        (show (p.1, p.2) ∈ l.enum from List.mem_reverse.mp hp)
      exact List.get?_mem this
    simp [h p.2 hpl]
  rw [hnil]
  rfl

theorem strFind_eq_some {c : Nat} :
    ∀ {s : List Nat} {i : Nat}, strFind c s = some i →
      i < s.length ∧ s.getD i 0 = c ∧ ∀ j < i, s.getD j 0 ≠ c := by
  intro s
  induction s with
  | nil => intro i h; simp [strFind] at h
  | cons b rest ih =>
    intro i h
    by_cases hb : (b == c) = true
    · rw [strFind, if_pos hb] at h
      cases h
      refine ⟨Nat.succ_pos _, by simpa using eq_of_beq hb, ?_⟩
      intro j hj; cases hj
    · rw [strFind, if_neg hb] at h
      rcases Option.map_eq_some'.mp h with ⟨i', hi', rfl⟩
      obtain ⟨h1, h2, h3⟩ := ih hi'
      refine ⟨by simpa using Nat.succ_lt_succ h1, by simpa using h2, ?_⟩
      intro j hj
      cases j with
      | zero =>
        simp only [List.getD_cons_zero]
        intro hcc
        exact hb (beq_iff_eq.mpr hcc)
      | succ j' =>
        rw [List.getD_cons_succ]
        exact h3 j' (Nat.lt_of_succ_lt_succ hj)

theorem strFind_eq_none {c : Nat} :
    ∀ {s : List Nat}, strFind c s = none → ∀ j < s.length, s.getD j 0 ≠ c := by
  intro s
  induction s with
  | nil => intro _ j hj; cases hj
  | cons b rest ih =>
    intro h j hj
    by_cases hb : (b == c) = true
    · rw [strFind, if_pos hb] at h; cases h
    · rw [strFind, if_neg hb] at h
      have hrest : strFind c rest = none := by
        cases hr : strFind c rest with
        | none => rfl
        | some k => rw [hr] at h; simp at h
      cases j with
      | zero =>
        simp only [List.getD_cons_zero]
        intro hcc
        exact hb (beq_iff_eq.mpr hcc)
      | succ j' =>
        rw [List.getD_cons_succ]
        exact ih hrest j' (Nat.lt_of_succ_lt_succ hj)

theorem strFind_get? {c : Nat} {s : List Nat} {i : Nat} (h : strFind c s = some i) :
    s.get? i = some c := by
  obtain ⟨h1, h2, _⟩ := strFind_eq_some h
  rw [List.get?_eq_getElem?, List.getElem?_eq_getElem h1]
  rw [List.getD_eq_getElem _ _ h1] at h2
  exact congrArg some h2

theorem isCharBoundary_zero (s : List Nat) : isCharBoundary s 0 = true := rfl

theorem isCharBoundary_cons_succ (x : Nat) (t : List Nat) (k : Nat) :
    isCharBoundary (x :: t) (k + 2) = isCharBoundary t (k + 1) := by
  unfold isCharBoundary
  have hg : (x :: t).get? (k + 2) = t.get? (k + 1) := rfl
  rw [hg]
  cases t.get? (k + 1) with
  | none =>
    show (decide (k + 2 = 0) || decide (k + 2 = (x :: t).length)) =
      (decide (k + 1 = 0) || decide (k + 1 = t.length))
    rw [decide_eq_false (by omega : ¬(k + 2 = 0)),
      decide_eq_false (by omega : ¬(k + 1 = 0)), Bool.false_or, Bool.false_or]
    apply decide_eq_decide.mpr
    simp only [List.length_cons]
    omega
  | some b =>
    show (decide (k + 2 = 0) || decide (b < 0x80 ∨ 0xC0 ≤ b)) =
      (decide (k + 1 = 0) || decide (b < 0x80 ∨ 0xC0 ≤ b))
    rw [decide_eq_false (by omega : ¬(k + 2 = 0)),
      decide_eq_false (by omega : ¬(k + 1 = 0))]

theorem asciiFollowedOk_tail {c : Nat} {t : List Nat}
    (h : asciiFollowedOk (c :: t) = true) : asciiFollowedOk t = true := by
  cases t with
  | nil => rfl
  | cons d r =>
    rw [show asciiFollowedOk (c :: d :: r) =
        ((decide (0x80 ≤ c) || !(isCont d)) && asciiFollowedOk (d :: r)) from rfl] at h
    rw [Bool.and_eq_true] at h
    exact h.2

theorem boundary_after_ascii : ∀ (s : List Nat), asciiFollowedOk s = true →
    ∀ i b, s.get? i = some b → b < 0x80 → isCharBoundary s (i + 1) = true := by
  intro s
  induction s with
  | nil => intro _ i b hb; simp at hb
  | cons x t ih =>
    intro hv i b0 hb0 hb0lt
    cases i with
    | zero =>
      have hx : b0 = x := by
        rw [List.get?_cons_zero, Option.some.injEq] at hb0
        exact hb0.symm
      subst hx
      cases t with
      | nil => rfl
      | cons c r =>
        rw [show asciiFollowedOk (b0 :: c :: r) =
            ((decide (0x80 ≤ b0) || !(isCont c)) && asciiFollowedOk (c :: r)) from rfl] at hv
        have h1 : (decide (0x80 ≤ b0) || !(isCont c)) = true := by
          rw [Bool.and_eq_true] at hv
          exact hv.1
        rw [decide_eq_false (by omega : ¬(0x80 ≤ b0)), Bool.false_or] at h1
        have hc : c < 0x80 ∨ 0xC0 ≤ c := by
          have hcf : isCont c = false := by
            cases hh : isCont c
            · rfl
            · rw [hh] at h1; cases h1
          simp only [isCont, Bool.and_eq_false_iff, decide_eq_false_iff_not] at hcf
          rcases hcf with h | h
          · exact Or.inl (by omega)
          · exact Or.inr (by omega)
        show (decide ((1 : Nat) = 0) || decide (c < 0x80 ∨ 0xC0 ≤ c)) = true
        rw [decide_eq_true hc, Bool.or_true]
    | succ j =>
      rw [isCharBoundary_cons_succ x t j]
      exact ih (asciiFollowedOk_tail hv) j b0 hb0 hb0lt

theorem isCharBoundary_of_ascii_or_len (s : List Nat) (i : Nat)
    (h : i = s.length ∨ ∃ b, s.get? i = some b ∧ b < 0x80) :
    isCharBoundary s i = true := by
  unfold isCharBoundary
  rcases h with rfl | ⟨b, hb, hlt⟩
  · have hg : s.get? s.length = none := List.get?_eq_none.mpr (Nat.le_refl _)
    rw [hg]
    show (decide (s.length = 0) || decide (s.length = s.length)) = true
    rw [decide_eq_true rfl, Bool.or_true]
  · rw [hb]
    show (decide (i = 0) || decide (b < 0x80 ∨ 0xC0 ≤ b)) = true
    rw [decide_eq_true (Or.inl hlt), Bool.or_true]

theorem parse_codeset_end_spec (s : List Nat) :
    (PosixLocale.parse s).codeset_end = s.length ∨
      s.get? ((PosixLocale.parse s).codeset_end) = some 64 := by
  show (strFind 64 s).getD s.length = s.length ∨
    s.get? ((strFind 64 s).getD s.length) = some 64
  cases h : strFind 64 s with
  | none => exact Or.inl rfl
  | some i => exact Or.inr (strFind_get? h)

theorem parse_territory_end_spec (s : List Nat) :
    (PosixLocale.parse s).territory_end = (PosixLocale.parse s).codeset_end ∨
      s.get? ((PosixLocale.parse s).territory_end) = some 46 := by
  show (strFind 46 s).getD ((PosixLocale.parse s).codeset_end) =
      (PosixLocale.parse s).codeset_end ∨
    s.get? ((strFind 46 s).getD ((PosixLocale.parse s).codeset_end)) = some 46
  cases h : strFind 46 s with
  | none => exact Or.inl rfl
  | some i => exact Or.inr (strFind_get? h)

theorem parse_language_end_spec (s : List Nat) :
    (PosixLocale.parse s).language_end = (PosixLocale.parse s).territory_end ∨
      s.get? ((PosixLocale.parse s).language_end) = some 95 := by
  show (strFind 95 s).getD ((PosixLocale.parse s).territory_end) =
      (PosixLocale.parse s).territory_end ∨
    s.get? ((strFind 95 s).getD ((PosixLocale.parse s).territory_end)) = some 95
  cases h : strFind 95 s with
  | none => exact Or.inl rfl
  | some i => exact Or.inr (strFind_get? h)

theorem parse_language_end_ascii_or_len (s : List Nat) :
    (PosixLocale.parse s).language_end = s.length ∨
      ∃ b, s.get? ((PosixLocale.parse s).language_end) = some b ∧
        (b = 95 ∨ b = 46 ∨ b = 64) := by
  rcases parse_language_end_spec s with hl | hl
  · rcases parse_territory_end_spec s with ht | ht
    · rcases parse_codeset_end_spec s with hc | hc
      · exact Or.inl (by rw [hl, ht, hc])
      · exact Or.inr ⟨64, by rw [hl, ht]; exact hc, Or.inr (Or.inr rfl)⟩
    · exact Or.inr ⟨46, by rw [hl]; exact ht, Or.inr (Or.inl rfl)⟩
  · exact Or.inr ⟨95, hl, Or.inl rfl⟩

theorem parse_language_end_boundary (s : List Nat) :
    isCharBoundary s ((PosixLocale.parse s).language_end) = true := by
  apply isCharBoundary_of_ascii_or_len
  rcases parse_language_end_ascii_or_len s with h | ⟨b, hb, hcases⟩
  · exact Or.inl h
  · exact Or.inr ⟨b, hb, by omega⟩

theorem parse_territory_end_boundary (s : List Nat) :
    isCharBoundary s ((PosixLocale.parse s).territory_end) = true := by
  apply isCharBoundary_of_ascii_or_len
  rcases parse_territory_end_spec s with ht | ht
  · rcases parse_codeset_end_spec s with hc | hc
    · exact Or.inl (by rw [ht, hc])
    · exact Or.inr ⟨64, by rw [ht]; exact hc, by omega⟩
  · exact Or.inr ⟨46, ht, by omega⟩

theorem parse_locale_eq (s : List Nat) : (PosixLocale.parse s).locale = s := rfl

theorem matchWeight_none_left (eq : List Nat → List Nat → Bool)
    (u : Option (List Nat)) (w : Nat) : matchWeight eq none u w = 0 := by
  cases u <;> rfl

theorem matchWeight_none_right (eq : List Nat → List Nat → Bool)
    (a : Option (List Nat)) (w : Nat) : matchWeight eq a none w = 0 := by
  cases a <;> rfl

theorem matchWeight_mismatch (eq : List Nat → List Nat → Bool) (b : List Nat)
    (u : Option (List Nat)) (w : Nat) (h : ∀ y, u = some y → eq b y = false) :
    matchWeight eq (some b) u w = 0 := by
  cases u with
  | none => rfl
  | some y => simp [matchWeight, h y rfl]

theorem matchWeight_asciiCaseEq_eq_spec (a u : Option (List Nat)) (w : Nat) :
    matchWeight asciiCaseEq a u w = specFieldScore a u w := by
  cases a <;> cases u <;> simp [matchWeight, specFieldScore]

theorem matchWeight_beq_eq_spec (a u : Option (List Nat)) (w : Nat)
    (h : optCaseFaithful a u) :
    matchWeight (fun x y => x == y) a u w = specFieldScore a u w := by
  cases a with
  | none => cases u <;> simp [matchWeight, specFieldScore]
  | some x =>
    cases u with
    | none => simp [matchWeight, specFieldScore]
    | some y =>
      have h' : (x == y) = asciiCaseEq x y := h
      simp only [matchWeight, specFieldScore, Option.isSome_some, Option.getD_some,
        Bool.true_and, h']

theorem optCaseFaithful_none_left (u : Option (List Nat)) : optCaseFaithful none u := by
  cases u <;> exact trivial

/-- C2: the score of a candidate against a preference is exactly the sum, over
the fixed ordered secondary fields, of the field's weight when both sides have
the field present with case-insensitively equal values (weights 32/16/8/4/2/1
for BCP 47 and 4/2/1 for POSIX); an absent field on either side contributes
exactly zero.  For BCP 47 the source compares canonicalised subtags with `==`;
the case-faithfulness hypotheses record the specification's requirement that
the external parser's canonicalisation makes `==` agree with ASCII
case-insensitive comparison. -/
theorem c2_score_is_weighted_sum :
    (∀ aval_locale user_locale : PosixLocale,
      posixScore aval_locale user_locale = posixSpecScore aval_locale user_locale) ∧
    (∀ t u : LanguageTag,
      optCaseFaithful t.extended_language u.extended_language →
      optCaseFaithful t.script u.script →
      optCaseFaithful t.region u.region →
      optCaseFaithful t.variant u.variant →
      optCaseFaithful t.extension u.extension →
      optCaseFaithful t.private_use u.private_use →
      bcp47Score t u = bcp47SpecScore t u) ∧
    (∀ (eq : List Nat → List Nat → Bool) (u : Option (List Nat)) (w : Nat),
      matchWeight eq none u w = 0) ∧
    (∀ (eq : List Nat → List Nat → Bool) (a : Option (List Nat)) (w : Nat),
      matchWeight eq a none w = 0) := by
  refine ⟨?_, ?_, matchWeight_none_left, matchWeight_none_right⟩
  · intro a u
    show posixScore a u =
      0 + specFieldScore a.territory u.territory 4 + specFieldScore a.codeset u.codeset 2 +
        specFieldScore a.modifier u.modifier 1
    unfold posixScore
    rw [matchWeight_asciiCaseEq_eq_spec, matchWeight_asciiCaseEq_eq_spec,
      matchWeight_asciiCaseEq_eq_spec]
    omega
  · intro t u h1 h2 h3 h4 h5 h6
    show bcp47Score t u =
      0 + specFieldScore t.extended_language u.extended_language 32 +
        specFieldScore t.script u.script 16 + specFieldScore t.region u.region 8 +
        specFieldScore t.variant u.variant 4 + specFieldScore t.extension u.extension 2 +
        specFieldScore t.private_use u.private_use 1
    unfold bcp47Score
    rw [matchWeight_beq_eq_spec _ _ _ h1, matchWeight_beq_eq_spec _ _ _ h2,
      matchWeight_beq_eq_spec _ _ _ h3, matchWeight_beq_eq_spec _ _ _ h4,
      matchWeight_beq_eq_spec _ _ _ h5, matchWeight_beq_eq_spec _ _ _ h6]
    omega

theorem c2_witness :
    bcp47Score
        { primary_language := [101, 110], extended_language := none, script := none,
          region := none, variant := none, extension := none, private_use := none }
        { primary_language := [101, 110], extended_language := none, script := none,
          region := none, variant := none, extension := none, private_use := none } =
      bcp47SpecScore
        { primary_language := [101, 110], extended_language := none, script := none,
          region := none, variant := none, extension := none, private_use := none }
        { primary_language := [101, 110], extended_language := none, script := none,
          region := none, variant := none, extension := none, private_use := none } :=
  c2_score_is_weighted_sum.2.1 _ _ (optCaseFaithful_none_left _)
    (optCaseFaithful_none_left _) (optCaseFaithful_none_left _)
    (optCaseFaithful_none_left _) (optCaseFaithful_none_left _)
    (optCaseFaithful_none_left _)

/-- C7 counterexample: against user preference "en_US", candidate "en" has the
territory field absent and candidate "en_GB" has it present but mismatched
("GB" vs "US"); all other fields agree.  Their scores are equal (both zero),
so they do not differ by the territory weight 4 as the claim states. -/
theorem c7_counterexample :
    (PosixLocale.parse [101, 110]).territory = none ∧
    (PosixLocale.parse [101, 110, 95, 71, 66]).territory = some [71, 66] ∧
    (PosixLocale.parse [101, 110, 95, 71, 66]).codeset =
      (PosixLocale.parse [101, 110]).codeset ∧
    (PosixLocale.parse [101, 110, 95, 71, 66]).modifier =
      (PosixLocale.parse [101, 110]).modifier ∧
    (PosixLocale.parse [101, 110, 95, 85, 83]).territory = some [85, 83] ∧
    asciiCaseEq [71, 66] [85, 83] = false ∧
    posixScore (PosixLocale.parse [101, 110, 95, 71, 66])
        (PosixLocale.parse [101, 110, 95, 85, 83]) =
      posixScore (PosixLocale.parse [101, 110]) (PosixLocale.parse [101, 110, 95, 85, 83]) ∧
    ¬(posixScore (PosixLocale.parse [101, 110, 95, 71, 66])
          (PosixLocale.parse [101, 110, 95, 85, 83]) =
        posixScore (PosixLocale.parse [101, 110])
          (PosixLocale.parse [101, 110, 95, 85, 83]) + 4 ∨
      posixScore (PosixLocale.parse [101, 110]) (PosixLocale.parse [101, 110, 95, 85, 83]) =
        posixScore (PosixLocale.parse [101, 110, 95, 71, 66])
          (PosixLocale.parse [101, 110, 95, 85, 83]) + 4) := by decide

/-- C7 amended: for two candidates identical except that one has a field absent
where the other has it present but mismatched against the preference, the two
scores are equal — both the absent field and the present-but-mismatched field
contribute exactly zero — and hence in particular never differ by more than
that field's weight.  Stated for each secondary field of both matchers. -/
theorem c7_amended_neutrality :
    (∀ u a b : PosixLocale, a.territory = none → b.territory.isSome →
      (∀ x y, b.territory = some x → u.territory = some y → asciiCaseEq x y = false) →
      b.codeset = a.codeset → b.modifier = a.modifier →
      posixScore b u = posixScore a u) ∧
    (∀ u a b : PosixLocale, a.codeset = none → b.codeset.isSome →
      (∀ x y, b.codeset = some x → u.codeset = some y → asciiCaseEq x y = false) →
      b.territory = a.territory → b.modifier = a.modifier →
      posixScore b u = posixScore a u) ∧
    (∀ u a b : PosixLocale, a.modifier = none → b.modifier.isSome →
      (∀ x y, b.modifier = some x → u.modifier = some y → asciiCaseEq x y = false) →
      b.territory = a.territory → b.codeset = a.codeset →
      posixScore b u = posixScore a u) ∧
    (∀ u t t' : LanguageTag, t.extended_language = none → t'.extended_language.isSome →
      (∀ x y, t'.extended_language = some x → u.extended_language = some y →
        (x == y) = false) →
      t'.script = t.script → t'.region = t.region → t'.variant = t.variant →
      t'.extension = t.extension → t'.private_use = t.private_use →
      bcp47Score t' u = bcp47Score t u) ∧
    (∀ u t t' : LanguageTag, t.script = none → t'.script.isSome →
      (∀ x y, t'.script = some x → u.script = some y → (x == y) = false) →
      t'.extended_language = t.extended_language → t'.region = t.region →
      t'.variant = t.variant → t'.extension = t.extension →
      t'.private_use = t.private_use →
      bcp47Score t' u = bcp47Score t u) ∧
    (∀ u t t' : LanguageTag, t.region = none → t'.region.isSome →
      (∀ x y, t'.region = some x → u.region = some y → (x == y) = false) →
      t'.extended_language = t.extended_language → t'.script = t.script →
      t'.variant = t.variant → t'.extension = t.extension →
      t'.private_use = t.private_use →
      bcp47Score t' u = bcp47Score t u) ∧
    (∀ u t t' : LanguageTag, t.variant = none → t'.variant.isSome →
      (∀ x y, t'.variant = some x → u.variant = some y → (x == y) = false) →
      t'.extended_language = t.extended_language → t'.script = t.script →
      t'.region = t.region → t'.extension = t.extension →
      t'.private_use = t.private_use →
      bcp47Score t' u = bcp47Score t u) ∧
    (∀ u t t' : LanguageTag, t.extension = none → t'.extension.isSome →
      (∀ x y, t'.extension = some x → u.extension = some y → (x == y) = false) →
      t'.extended_language = t.extended_language → t'.script = t.script →
      t'.region = t.region → t'.variant = t.variant →
      t'.private_use = t.private_use →
      bcp47Score t' u = bcp47Score t u) ∧
    (∀ u t t' : LanguageTag, t.private_use = none → t'.private_use.isSome →
      (∀ x y, t'.private_use = some x → u.private_use = some y → (x == y) = false) →
      t'.extended_language = t.extended_language → t'.script = t.script →
      t'.region = t.region → t'.variant = t.variant →
      t'.extension = t.extension →
      bcp47Score t' u = bcp47Score t u) := by
  have hz : ∀ (eq : List Nat → List Nat → Bool) (f : Option (List Nat))
      (uf : Option (List Nat)) (w : Nat), f.isSome →
      (∀ x y, f = some x → uf = some y → eq x y = false) →
      matchWeight eq f uf w = 0 := by
    intro eq f uf w hs hmm
    rcases Option.isSome_iff_exists.mp hs with ⟨x, rfl⟩
    exact matchWeight_mismatch eq x uf w (fun y hy => hmm x y rfl hy)
  refine ⟨?_, ?_, ?_, ?_, ?_, ?_, ?_, ?_, ?_⟩
  · intro u a b hn hs hmm hc hm
    unfold posixScore
    rw [hc, hm, hn, matchWeight_none_left, hz asciiCaseEq b.territory u.territory 4 hs hmm]
  · intro u a b hn hs hmm ht hm
    unfold posixScore
    rw [ht, hm, hn, matchWeight_none_left, hz asciiCaseEq b.codeset u.codeset 2 hs hmm]
  · intro u a b hn hs hmm ht hc
    unfold posixScore
    rw [ht, hc, hn, matchWeight_none_left, hz asciiCaseEq b.modifier u.modifier 1 hs hmm]
  · intro u t t' hn hs hmm h1 h2 h3 h4 h5
    unfold bcp47Score
    rw [h1, h2, h3, h4, h5, hn, matchWeight_none_left,
      hz _ t'.extended_language u.extended_language 32 hs hmm]
  · intro u t t' hn hs hmm h1 h2 h3 h4 h5
    unfold bcp47Score
    rw [h1, h2, h3, h4, h5, hn, matchWeight_none_left,
      hz _ t'.script u.script 16 hs hmm]
  · intro u t t' hn hs hmm h1 h2 h3 h4 h5
    unfold bcp47Score
    rw [h1, h2, h3, h4, h5, hn, matchWeight_none_left,
      hz _ t'.region u.region 8 hs hmm]
  · intro u t t' hn hs hmm h1 h2 h3 h4 h5
    unfold bcp47Score
    rw [h1, h2, h3, h4, h5, hn, matchWeight_none_left,
      hz _ t'.variant u.variant 4 hs hmm]
  · intro u t t' hn hs hmm h1 h2 h3 h4 h5
    unfold bcp47Score
    rw [h1, h2, h3, h4, h5, hn, matchWeight_none_left,
      hz _ t'.extension u.extension 2 hs hmm]
  · intro u t t' hn hs hmm h1 h2 h3 h4 h5
    unfold bcp47Score
    rw [h1, h2, h3, h4, h5, hn, matchWeight_none_left,
      hz _ t'.private_use u.private_use 1 hs hmm]

theorem c7_witness :
    posixScore (PosixLocale.parse [101, 110, 95, 71, 66])
        (PosixLocale.parse [101, 110, 95, 85, 83]) =
      posixScore (PosixLocale.parse [101, 110])
        (PosixLocale.parse [101, 110, 95, 85, 83]) :=
  c7_amended_neutrality.1 (PosixLocale.parse [101, 110, 95, 85, 83])
    (PosixLocale.parse [101, 110]) (PosixLocale.parse [101, 110, 95, 71, 66])
    (by decide) (by decide)
    (by intro x y hx hy
        have hx' : x = [71, 66] := by
          have : some x = some [71, 66] := by rw [← hx]; decide
          exact (Option.some.injEq _ _ ▸ this)
        have hy' : y = [85, 83] := by
          have : some y = some [85, 83] := by rw [← hy]; decide
          exact (Option.some.injEq _ _ ▸ this)
        rw [hx', hy']; decide)
    (by decide) (by decide)

/-- C4: whenever either best_matching_locale returns some value, that value is
exactly one element (same byte sequence) of the original available-locales
input, never a reconstructed string; concretely, the POSIX matcher on available
["EN"] and user ["en"] returns "EN" itself. -/
theorem c4_exact_passthrough :
    (∀ (p : List Nat → Option LanguageTag) (avail user : List (List Nat)) (v : List Nat),
      bcp47.best_matching_locale p avail user = some v → v ∈ avail) ∧
    (∀ (avail user : List (List Nat)) (v : List Nat),
      posix.best_matching_locale avail user = some v → v ∈ avail) ∧
    posix.best_matching_locale [[69, 78]] [[101, 110]] = some [69, 78] := by
  refine ⟨?_, ?_, by decide⟩
  · intro p avail user v h
    unfold bcp47.best_matching_locale at h
    rcases Option.bind_eq_some.mp h with ⟨i, _, hget⟩
    rcases Option.map_eq_some'.mp hget with ⟨lt, hlt, hv⟩
    have hmem : lt ∈ bcp47.available_tags p avail := List.get?_mem hlt
    unfold bcp47.available_tags at hmem
    rcases List.mem_filterMap.mp hmem with ⟨l, hl, hpl⟩
    rcases Option.map_eq_some'.mp hpl with ⟨tag, _, hlt2⟩
    have hlv : l = v := by rw [← hv, ← hlt2]
    exact hlv ▸ hl
  · intro avail user v h
    unfold posix.best_matching_locale at h
    rcases Option.bind_eq_some.mp h with ⟨i, _, hget⟩
    rcases Option.map_eq_some'.mp hget with ⟨al, hal, hv⟩
    have hmem : al ∈ posix.available_parsed_locales avail := List.get?_mem hal
    unfold posix.available_parsed_locales at hmem
    rcases List.mem_map.mp hmem with ⟨l, hl, hparse⟩
    have hlv : v = l := by rw [← hv, ← hparse]; rfl
    exact hlv ▸ hl

theorem c4_witness : ([69, 78] : List Nat) ∈ ([[69, 78]] : List (List Nat)) :=
  c4_exact_passthrough.2.1 [[69, 78]] [[101, 110]] [69, 78] (by decide)

/-- C9: both entry points are total Option-returning functions; an empty
available list, an empty user list, or both yield none; a parse failure in the
BCP 47 grammar silently removes exactly that one candidate or user preference
(the result equals the result without it) and never aborts the operation (the
POSIX parser never fails, so nothing is ever dropped there). -/
theorem c9_error_handling :
    (∀ (p : List Nat → Option LanguageTag) (user : List (List Nat)),
      bcp47.best_matching_locale p [] user = none) ∧
    (∀ (p : List Nat → Option LanguageTag) (avail : List (List Nat)),
      bcp47.best_matching_locale p avail [] = none) ∧
    (∀ (p : List Nat → Option LanguageTag) (a : List Nat) (avail user : List (List Nat)),
      p a = none →
      bcp47.best_matching_locale p (a :: avail) user =
        bcp47.best_matching_locale p avail user) ∧
    (∀ (p : List Nat → Option LanguageTag) (u : List Nat) (avail user : List (List Nat)),
      p u = none →
      bcp47.best_matching_locale p avail (u :: user) =
        bcp47.best_matching_locale p avail user) ∧
    (∀ user : List (List Nat), posix.best_matching_locale [] user = none) ∧
    (∀ avail : List (List Nat), posix.best_matching_locale avail [] = none) := by
  refine ⟨?_, ?_, ?_, ?_, ?_, ?_⟩
  · intro p user
    unfold bcp47.best_matching_locale
    have hn : List.findSome?
        (fun user_tag => bcp47.selectFor user_tag (bcp47.available_tags p []))
        (List.filterMap p user) = none :=
      List.findSome?_eq_none_iff.mpr (fun ut _ => rfl)
    rw [hn]
    rfl
  · intro p avail
    rfl
  · intro p a avail user h
    unfold bcp47.best_matching_locale bcp47.available_tags
    rw [List.filterMap_cons_none (by rw [h]; rfl)]
  · intro p u avail user h
    unfold bcp47.best_matching_locale
    rw [List.filterMap_cons_none h]
  · intro user
    unfold posix.best_matching_locale
    have hn : List.findSome?
        (fun user_locale => posix.selectFor user_locale (posix.available_parsed_locales []))
        (List.map PosixLocale.parse user) = none :=
      List.findSome?_eq_none_iff.mpr (fun ul _ => rfl)
    rw [hn]
    rfl
  · intro avail
    rfl

theorem c9_witness :
    bcp47.best_matching_locale toyParse [[], [101, 110]] [[101, 110]] =
      bcp47.best_matching_locale toyParse [[101, 110]] [[101, 110]] :=
  c9_error_handling.2.2.1 toyParse [] [[101, 110]] [[101, 110]] rfl

/-- C10: PosixLocale::parse and the accessors never panic on any byte string:
the language-slice boundary is always the byte index of an ASCII delimiter
(`_`, `.`, `@`) or the string length, hence a UTF-8 character boundary, so the
panicking slice `&locale[0..language_end]` always succeeds; and each optional
accessor returns none rather than failing when its computed range is inverted
or out of bounds. -/
theorem c10_no_panic (s : List Nat) :
    ((PosixLocale.parse s).language_end = s.length ∨
      ∃ b, s.get? ((PosixLocale.parse s).language_end) = some b ∧
        (b = 95 ∨ b = 46 ∨ b = 64)) ∧
    isCharBoundary s ((PosixLocale.parse s).language_end) = true ∧
    (PosixLocale.parse s).languageChecked = some ((PosixLocale.parse s).language) ∧
    ((PosixLocale.parse s).territory_end < (PosixLocale.parse s).language_end + 1 →
      (PosixLocale.parse s).territory = none) ∧
    ((PosixLocale.parse s).codeset_end < (PosixLocale.parse s).territory_end + 1 →
      (PosixLocale.parse s).codeset = none) ∧
    (s.length < (PosixLocale.parse s).codeset_end + 1 →
      (PosixLocale.parse s).modifier = none) := by
  refine ⟨parse_language_end_ascii_or_len s, parse_language_end_boundary s, ?_, ?_, ?_, ?_⟩
  · unfold PosixLocale.languageChecked strSlice
    rw [if_pos ⟨Nat.zero_le _, isCharBoundary_zero _, parse_language_end_boundary s⟩]
    rw [List.drop_zero]
    rfl
  · intro hlt
    unfold PosixLocale.territory strSlice
    rw [if_neg]
    intro hcond
    exact absurd hcond.1 (by omega)
  · intro hlt
    unfold PosixLocale.codeset strSlice
    rw [if_neg]
    intro hcond
    exact absurd hcond.1 (by omega)
  · intro hlt
    unfold PosixLocale.modifier strSlice
    rw [if_neg]
    intro hcond
    have := hcond.1
    exact absurd this (by rw [parse_locale_eq] at this ⊢; omega)

theorem c10_witness :
    isCharBoundary [101, 110] ((PosixLocale.parse [101, 110]).language_end) = true ∧
    (PosixLocale.parse [101, 110]).languageChecked =
      some ((PosixLocale.parse [101, 110]).language) ∧
    (PosixLocale.parse [101, 110]).territory = none :=
  ⟨(c10_no_panic [101, 110]).2.1, (c10_no_panic [101, 110]).2.2.1,
    (c10_no_panic [101, 110]).2.2.2.1 (by decide)⟩

theorem parse_codeset_end_def (s : List Nat) :
    (PosixLocale.parse s).codeset_end = (strFind 64 s).getD s.length := rfl

theorem parse_territory_end_def (s : List Nat) :
    (PosixLocale.parse s).territory_end =
      (strFind 46 s).getD ((PosixLocale.parse s).codeset_end) := rfl

theorem parse_language_end_def (s : List Nat) :
    (PosixLocale.parse s).language_end =
      (strFind 95 s).getD ((PosixLocale.parse s).territory_end) := rfl

/-- C6 counterexample: on the input "a@b.c" the specification's bounded scan
(no `.` occurs before the `@`, so the territory boundary falls back to the `@`
boundary, index 1, and language would be "a") disagrees with the code, whose
unbounded `find('.')` lands after the `@` (index 3) so that language is "a@b". -/
theorem c6_counterexample :
    (PosixLocale.parse [97, 64, 98, 46, 99]).language = [97, 64, 98] ∧
    boundedScanLanguage [97, 64, 98, 46, 99] = [97] ∧
    (PosixLocale.parse [97, 64, 98, 46, 99]).language ≠
      boundedScanLanguage [97, 64, 98, 46, 99] := by decide

/-- C6 amended: the parser's boundaries are unbounded first-occurrence scans
with chained fallbacks — codeset_end is the index of the first `@` anywhere (or
the length), territory_end the index of the first `.` anywhere in the whole
string (or codeset_end if `.` does not occur at all), language_end the index of
the first `_` anywhere (or territory_end) — the language field is everything
before the `_` boundary, and the territory is the slice strictly between the
`_` boundary and the `.` boundary when a `_` was found and that range is not
inverted, otherwise absent.  Stated for byte strings satisfying the UTF-8
well-formedness consequence `asciiFollowedOk` (all Rust strings do). -/
theorem c6_amended_unbounded_scan (s : List Nat) (hv : asciiFollowedOk s = true) :
    firstIdxOr s 64 s.length ((PosixLocale.parse s).codeset_end) ∧
    firstIdxOr s 46 ((PosixLocale.parse s).codeset_end)
      ((PosixLocale.parse s).territory_end) ∧
    firstIdxOr s 95 ((PosixLocale.parse s).territory_end)
      ((PosixLocale.parse s).language_end) ∧
    (PosixLocale.parse s).language = s.take ((PosixLocale.parse s).language_end) ∧
    ((strFind 95 s).isSome →
      (PosixLocale.parse s).language_end + 1 ≤ (PosixLocale.parse s).territory_end →
      (PosixLocale.parse s).territory =
        some ((s.take ((PosixLocale.parse s).territory_end)).drop
          ((PosixLocale.parse s).language_end + 1))) ∧
    (strFind 95 s = none ∨
        (PosixLocale.parse s).territory_end < (PosixLocale.parse s).language_end + 1 →
      (PosixLocale.parse s).territory = none) := by
  refine ⟨?_, ?_, ?_, rfl, ?_, ?_⟩
  · rw [parse_codeset_end_def]
    cases h : strFind 64 s with
    | none => exact Or.inr ⟨rfl, strFind_eq_none h⟩
    | some i => exact Or.inl (strFind_eq_some h)
  · rw [parse_territory_end_def]
    cases h : strFind 46 s with
    | none => exact Or.inr ⟨rfl, strFind_eq_none h⟩
    | some i => exact Or.inl (strFind_eq_some h)
  · rw [parse_language_end_def]
    cases h : strFind 95 s with
    | none => exact Or.inr ⟨rfl, strFind_eq_none h⟩
    | some i => exact Or.inl (strFind_eq_some h)
  · intro hsome hle
    rcases Option.isSome_iff_exists.mp hsome with ⟨i, hi⟩
    have hend : (PosixLocale.parse s).language_end = i := by
      rw [parse_language_end_def, hi]
      rfl
    have hstart : isCharBoundary s ((PosixLocale.parse s).language_end + 1) = true := by
      rw [hend]
      exact boundary_after_ascii s hv i 95 (strFind_get? hi) (by omega)
    unfold PosixLocale.territory
    show strSlice s ((PosixLocale.parse s).language_end + 1)
        ((PosixLocale.parse s).territory_end) = _
    unfold strSlice
    rw [if_pos ⟨hle, hstart, parse_territory_end_boundary s⟩]
  · intro hcase
    unfold PosixLocale.territory
    show strSlice s ((PosixLocale.parse s).language_end + 1)
        ((PosixLocale.parse s).territory_end) = none
    unfold strSlice
    rw [if_neg]
    intro hcond
    rcases hcase with hnone | hlt
    · have hend : (PosixLocale.parse s).language_end =
          (PosixLocale.parse s).territory_end := by
        rw [parse_language_end_def, hnone]
        rfl
      rw [hend] at hcond
      exact absurd hcond.1 (by omega)
    · exact absurd hcond.1 (by omega)

theorem c6_witness :
    firstIdxOr [101, 110, 95, 85, 83, 46, 85, 84, 70, 45, 56] 46
      ((PosixLocale.parse [101, 110, 95, 85, 83, 46, 85, 84, 70, 45, 56]).codeset_end)
      ((PosixLocale.parse [101, 110, 95, 85, 83, 46, 85, 84, 70, 45, 56]).territory_end) ∧
    (PosixLocale.parse [101, 110, 95, 85, 83, 46, 85, 84, 70, 45, 56]).territory =
      some (([101, 110, 95, 85, 83, 46, 85, 84, 70, 45, 56].take
        ((PosixLocale.parse [101, 110, 95, 85, 83, 46, 85, 84, 70, 45, 56]).territory_end)).drop
        ((PosixLocale.parse [101, 110, 95, 85, 83, 46, 85, 84, 70, 45, 56]).language_end + 1)) :=
  ⟨(c6_amended_unbounded_scan [101, 110, 95, 85, 83, 46, 85, 84, 70, 45, 56]
      (by decide)).2.1,
   (c6_amended_unbounded_scan [101, 110, 95, 85, 83, 46, 85, 84, 70, 45, 56]
      (by decide)).2.2.2.2.1 (by decide) (by decide)⟩

theorem bcp47_best_spec (p : List Nat → Option LanguageTag)
    (avail user : List (List Nat)) (v : List Nat)
    (h : bcp47.best_matching_locale p avail user = some v) :
    ∃ (u : List Nat) (ut : LanguageTag) (i : Nat) (t : LanguageTag),
      u ∈ user ∧ p u = some ut ∧
      (bcp47.available_tags p avail).get? i = some (v, t) ∧
      p v = some t ∧
      bcp47.selectFor ut (bcp47.available_tags p avail) = some i ∧
      (t.primary_language == ut.primary_language) = true ∧
      (∀ j w tw, (bcp47.available_tags p avail).get? j = some (w, tw) →
        (tw.primary_language == ut.primary_language) = true →
        bcp47Score tw ut ≤ bcp47Score t ut ∧
          (j < i → bcp47Score tw ut < bcp47Score t ut)) := by
  unfold bcp47.best_matching_locale at h
  rcases Option.bind_eq_some.mp h with ⟨i, hfind, hget⟩
  rcases Option.map_eq_some'.mp hget with ⟨lt, hlt, hv⟩
  rcases List.exists_of_findSome?_eq_some hfind with ⟨ut, hutmem, hsel⟩
  rcases List.mem_filterMap.mp hutmem with ⟨u, hu, hpu⟩
  obtain ⟨v', t⟩ := lt
  have hv' : v' = v := hv
  subst hv'
  have hpv : p v' = some t := by
    have hmem : (v', t) ∈ bcp47.available_tags p avail := List.get?_mem hlt
    unfold bcp47.available_tags at hmem
    rcases List.mem_filterMap.mp hmem with ⟨l, _, hpl⟩
    rcases Option.map_eq_some'.mp hpl with ⟨tag, hptag, heq2⟩
    have h1 : l = v' := congrArg Prod.fst heq2
    have h2 : tag = t := congrArg Prod.snd heq2
    rw [← h1, ← h2] at *
    exact hptag
  have hsel' := hsel
  unfold bcp47.selectFor at hsel'
  obtain ⟨b, hb, hbpred, hall⟩ := selectIdx_eq_some _ _ _ _ hsel'
  have hbeq : b = (v', t) := by
    rw [hb] at hlt
    exact Option.some.inj hlt
  subst hbeq
  refine ⟨u, ut, i, t, hu, hpu, hlt, hpv, hsel, hbpred, ?_⟩
  intro j w tw hj hjpred
  exact hall j (w, tw) hj hjpred

theorem posix_best_spec (avail user : List (List Nat)) (v : List Nat)
    (h : posix.best_matching_locale avail user = some v) :
    ∃ (u : List Nat) (i : Nat),
      u ∈ user ∧ v ∈ avail ∧
      (posix.available_parsed_locales avail).get? i = some (PosixLocale.parse v) ∧
      posix.selectFor (PosixLocale.parse u) (posix.available_parsed_locales avail) =
        some i ∧
      asciiCaseEq ((PosixLocale.parse v).language)
        ((PosixLocale.parse u).language) = true ∧
      (∀ j al, (posix.available_parsed_locales avail).get? j = some al →
        asciiCaseEq al.language ((PosixLocale.parse u).language) = true →
        posixScore al (PosixLocale.parse u) ≤
          posixScore (PosixLocale.parse v) (PosixLocale.parse u) ∧
          (j < i → posixScore al (PosixLocale.parse u) <
            posixScore (PosixLocale.parse v) (PosixLocale.parse u))) := by
  unfold posix.best_matching_locale at h
  rcases Option.bind_eq_some.mp h with ⟨i, hfind, hget⟩
  rcases Option.map_eq_some'.mp hget with ⟨al, hal, hv⟩
  rcases List.exists_of_findSome?_eq_some hfind with ⟨ul, hulmem, hsel⟩
  rcases List.mem_map.mp hulmem with ⟨u, hu, hparseu⟩
  have hmem : al ∈ posix.available_parsed_locales avail := List.get?_mem hal
  have hmem' : al ∈ avail.map PosixLocale.parse := hmem
  rcases List.mem_map.mp hmem' with ⟨l, hl, hparsel⟩
  have hvl : v = l := by rw [← hv, ← hparsel]; rfl
  have halv : al = PosixLocale.parse v := by rw [hvl, hparsel]
  subst hparseu
  subst halv
  have hsel' := hsel
  unfold posix.selectFor at hsel'
  obtain ⟨b, hb, hbpred, hall⟩ := selectIdx_eq_some _ _ _ _ hsel'
  have hbeq : b = PosixLocale.parse v := by
    rw [hb] at hal
    exact Option.some.inj hal
  subst hbeq
  exact ⟨u, i, hu, hvl ▸ hl, hal, hsel, hbpred, fun j al hj hjp => hall j al hj hjp⟩

theorem bcp47_fallthrough (p : List Nat → Option LanguageTag)
    (avail : List (List Nat)) (u : List Nat) (us : List (List Nat))
    (h : ∀ ut, p u = some ut → ∀ lt ∈ bcp47.available_tags p avail,
      (lt.2.primary_language == ut.primary_language) = false) :
    bcp47.best_matching_locale p avail (u :: us) =
      bcp47.best_matching_locale p avail us := by
  unfold bcp47.best_matching_locale
  cases hpu : p u with
  | none => rw [List.filterMap_cons_none hpu]
  | some ut =>
    rw [show List.filterMap p (u :: us) = ut :: List.filterMap p us by
      simp [List.filterMap_cons, hpu], List.findSome?_cons]
    have hnone : bcp47.selectFor ut (bcp47.available_tags p avail) = none :=
      selectIdx_eq_none_of _ _ _ (fun lt hlt => h ut hpu lt hlt)
    rw [hnone]

theorem bcp47_exhaustion (p : List Nat → Option LanguageTag)
    (avail : List (List Nat)) :
    ∀ user : List (List Nat),
      (∀ u ∈ user, ∀ ut, p u = some ut → ∀ lt ∈ bcp47.available_tags p avail,
        (lt.2.primary_language == ut.primary_language) = false) →
      bcp47.best_matching_locale p avail user = none := by
  intro user
  induction user with
  | nil => intro _; rfl
  | cons u us ih =>
    intro h
    rw [bcp47_fallthrough p avail u us (h u (List.mem_cons_self u us))]
    exact ih (fun w hw => h w (List.mem_cons_of_mem u hw))

theorem posix_fallthrough (avail : List (List Nat)) (u : List Nat)
    (us : List (List Nat))
    (h : ∀ al ∈ posix.available_parsed_locales avail,
      asciiCaseEq al.language ((PosixLocale.parse u).language) = false) :
    posix.best_matching_locale avail (u :: us) =
      posix.best_matching_locale avail us := by
  unfold posix.best_matching_locale
  rw [List.map_cons, List.findSome?_cons]
  have hnone : posix.selectFor (PosixLocale.parse u)
      (posix.available_parsed_locales avail) = none :=
    selectIdx_eq_none_of _ _ _ (fun al hal => h al hal)
  rw [hnone]

theorem posix_exhaustion (avail : List (List Nat)) :
    ∀ user : List (List Nat),
      (∀ u ∈ user, ∀ al ∈ posix.available_parsed_locales avail,
        asciiCaseEq al.language ((PosixLocale.parse u).language) = false) →
      posix.best_matching_locale avail user = none := by
  intro user
  induction user with
  | nil => intro _; rfl
  | cons u us ih =>
    intro h
    rw [posix_fallthrough avail u us (h u (List.mem_cons_self u us))]
    exact ih (fun w hw => h w (List.mem_cons_of_mem u hw))

theorem selectFor_self_head_bcp47 (ut : LanguageTag) (a : List Nat)
    (rest : List (List Nat × LanguageTag)) :
    bcp47.selectFor ut ((a, ut) :: rest) = some 0 := by
  have hpred : (((a, ut) : List Nat × LanguageTag).2.primary_language ==
      ut.primary_language) = true := by simp
  have hsome := selectIdx_isSome
    (fun lt : List Nat × LanguageTag => lt.2.primary_language == ut.primary_language)
    (fun lt => bcp47Score lt.2 ut) ((a, ut) :: rest) 0 (a, ut) rfl hpred
  rcases Option.isSome_iff_exists.mp hsome with ⟨i, hi⟩
  obtain ⟨b, hb, hbpred, hall⟩ := selectIdx_eq_some _ _ _ _ hi
  have h0 := hall 0 (a, ut) rfl hpred
  have hle : bcp47Score b.2 ut ≤ bcp47Score ut ut := bcp47Score_le_self b.2 ut
  have hi0 : i = 0 := by
    by_contra hne
    have hpos : 0 < i := Nat.pos_of_ne_zero hne
    exact absurd (Nat.lt_of_lt_of_le (h0.2 hpos) hle) (Nat.lt_irrefl _)
  unfold bcp47.selectFor
  rw [hi, hi0]

theorem selectFor_self_head_posix (u : PosixLocale) (rest : List PosixLocale) :
    posix.selectFor u (u :: rest) = some 0 := by
  have hpred : asciiCaseEq u.language u.language = true := asciiCaseEq_refl _
  have hsome := selectIdx_isSome
    (fun al : PosixLocale => asciiCaseEq al.language u.language)
    (fun al => posixScore al u) (u :: rest) 0 u rfl hpred
  rcases Option.isSome_iff_exists.mp hsome with ⟨i, hi⟩
  obtain ⟨b, hb, hbpred, hall⟩ := selectIdx_eq_some _ _ _ _ hi
  have h0 := hall 0 u rfl hpred
  have hle : posixScore b u ≤ posixScore u u := posixScore_le_self b u
  have hi0 : i = 0 := by
    by_contra hne
    have hpos : 0 < i := Nat.pos_of_ne_zero hne
    exact absurd (Nat.lt_of_lt_of_le (h0.2 hpos) hle) (Nat.lt_irrefl _)
  unfold posix.selectFor
  rw [hi, hi0]

theorem selectIdx_pair {β : Type _} (pred : β → Bool) (key : β → Nat) (x y : β)
    (hx : pred x = true) (hy : pred y = true) (hyx : key y ≤ key x) :
    selectIdx pred key [x, y] = some 0 := by
  unfold selectIdx
  rw [show (([x, y] : List β).enum.reverse.filter (fun ib => pred ib.2)) =
      [(1, y), (0, x)] from by
    show List.filter _ [(1, y), (0, x)] = _
    simp [List.filter_cons, hx, hy]]
  unfold maxByKey
  simp only [List.foldl_cons, List.foldl_nil]
  show some ((if key y ≤ key x then ((0 : Nat), x) else (1, y)).1) = some 0
  rw [if_pos hyx]

/-- C5: if a user preference's language matches no candidate (its filtered set
is empty), the matcher falls through to the next preference; if no preference's
language matches any candidate, the result is none.  Stated for both matchers
(for BCP 47 a preference that fails to parse also falls through, covered by the
same statement since the hypothesis is vacuous then). -/
theorem c5_fallthrough :
    (∀ (p : List Nat → Option LanguageTag) (avail : List (List Nat)) (u : List Nat)
        (us : List (List Nat)),
      (∀ ut, p u = some ut → ∀ lt ∈ bcp47.available_tags p avail,
        (lt.2.primary_language == ut.primary_language) = false) →
      bcp47.best_matching_locale p avail (u :: us) =
        bcp47.best_matching_locale p avail us) ∧
    (∀ (p : List Nat → Option LanguageTag) (avail user : List (List Nat)),
      (∀ u ∈ user, ∀ ut, p u = some ut → ∀ lt ∈ bcp47.available_tags p avail,
        (lt.2.primary_language == ut.primary_language) = false) →
      bcp47.best_matching_locale p avail user = none) ∧
    (∀ (avail : List (List Nat)) (u : List Nat) (us : List (List Nat)),
      (∀ al ∈ posix.available_parsed_locales avail,
        asciiCaseEq al.language ((PosixLocale.parse u).language) = false) →
      posix.best_matching_locale avail (u :: us) =
        posix.best_matching_locale avail us) ∧
    (∀ (avail user : List (List Nat)),
      (∀ u ∈ user, ∀ al ∈ posix.available_parsed_locales avail,
        asciiCaseEq al.language ((PosixLocale.parse u).language) = false) →
      posix.best_matching_locale avail user = none) :=
  ⟨bcp47_fallthrough, fun p avail user => bcp47_exhaustion p avail user,
    posix_fallthrough, fun avail user => posix_exhaustion avail user⟩

theorem c5_witness : posix.best_matching_locale [[101, 110]] [[114, 117]] = none :=
  c5_fallthrough.2.2.2 [[101, 110]] [[114, 117]] (by decide)

/-- C8: on a non-empty list matched against itself, with every element parsing
successfully (automatic for POSIX, whose parser is total), both matchers return
the first element. -/
theorem c8_idempotence :
    (∀ (p : List Nat → Option LanguageTag) (a : List Nat) (L : List (List Nat)),
      (∀ l ∈ a :: L, (p l).isSome) →
      bcp47.best_matching_locale p (a :: L) (a :: L) = some a) ∧
    (∀ (a : List Nat) (L : List (List Nat)),
      posix.best_matching_locale (a :: L) (a :: L) = some a) := by
  constructor
  · intro p a L hps
    rcases Option.isSome_iff_exists.mp (hps a (List.mem_cons_self a L)) with ⟨ta, hta⟩
    unfold bcp47.best_matching_locale
    have havail : bcp47.available_tags p (a :: L) =
        (a, ta) :: bcp47.available_tags p L := by
      unfold bcp47.available_tags
      simp [List.filterMap_cons, hta]
    have huser : List.filterMap p (a :: L) = ta :: List.filterMap p L := by
      simp [List.filterMap_cons, hta]
    rw [havail, huser, List.findSome?_cons, selectFor_self_head_bcp47 ta a _]
    rfl
  · intro a L
    unfold posix.best_matching_locale
    have havail : posix.available_parsed_locales (a :: L) =
        PosixLocale.parse a :: posix.available_parsed_locales L := rfl
    rw [havail, show List.map PosixLocale.parse (a :: L) =
        PosixLocale.parse a :: List.map PosixLocale.parse L from rfl,
      List.findSome?_cons, selectFor_self_head_posix (PosixLocale.parse a) _]
    rfl

theorem c8_witness :
    bcp47.best_matching_locale toyParse [[101, 110]] [[101, 110]] = some [101, 110] :=
  c8_idempotence.1 toyParse [101, 110] [] (by decide)

/-- C3: a candidate whose language differs under case-insensitive comparison
from the user preference it is matched against is never returned: the selection
step only ever returns a candidate whose language field is case-insensitively
equal to that preference's language (for BCP 47 the filter compares the
canonicalised primary languages with `==`, which implies case-insensitive
equality of the stored values), and consequently any returned value's language
is case-insensitively equal to the language of the preference that selected
it. -/
theorem c3_language_gate :
    (∀ (ut : LanguageTag) (avail : List (List Nat × LanguageTag)) (i : Nat)
        (v : List Nat) (t : LanguageTag),
      bcp47.selectFor ut avail = some i → avail.get? i = some (v, t) →
      asciiCaseEq t.primary_language ut.primary_language = true) ∧
    (∀ (u : PosixLocale) (avail : List PosixLocale) (i : Nat) (al : PosixLocale),
      posix.selectFor u avail = some i → avail.get? i = some al →
      asciiCaseEq al.language u.language = true) ∧
    (∀ (p : List Nat → Option LanguageTag) (avail user : List (List Nat)) (v : List Nat),
      bcp47.best_matching_locale p avail user = some v →
      ∃ t ut, p v = some t ∧ (∃ u ∈ user, p u = some ut) ∧
        asciiCaseEq t.primary_language ut.primary_language = true) ∧
    (∀ (avail user : List (List Nat)) (v : List Nat),
      posix.best_matching_locale avail user = some v →
      ∃ u ∈ user, asciiCaseEq ((PosixLocale.parse v).language)
        ((PosixLocale.parse u).language) = true) := by
  refine ⟨?_, ?_, ?_, ?_⟩
  · intro ut avail i v t hsel hget
    unfold bcp47.selectFor at hsel
    obtain ⟨b, hb, hbpred, _⟩ := selectIdx_eq_some _ _ _ _ hsel
    rw [hb] at hget
    have hbv : b = (v, t) := Option.some.inj hget
    subst hbv
    exact asciiCaseEq_of_beq hbpred
  · intro u avail i al hsel hget
    unfold posix.selectFor at hsel
    obtain ⟨b, hb, hbpred, _⟩ := selectIdx_eq_some _ _ _ _ hsel
    rw [hb] at hget
    have hbv : b = al := Option.some.inj hget
    subst hbv
    exact hbpred
  · intro p avail user v h
    obtain ⟨u, ut, i, t, hu, hpu, _, hpv, _, hpred, _⟩ := bcp47_best_spec p avail user v h
    exact ⟨t, ut, hpv, ⟨u, hu, hpu⟩, asciiCaseEq_of_beq hpred⟩
  · intro avail user v h
    obtain ⟨u, i, hu, _, _, _, hlang, _⟩ := posix_best_spec avail user v h
    exact ⟨u, hu, hlang⟩

theorem c3_witness :
    ∃ u ∈ ([[101, 110]] : List (List Nat)),
      asciiCaseEq ((PosixLocale.parse [101, 110]).language)
        ((PosixLocale.parse u).language) = true :=
  c3_language_gate.2.2.2 [[101, 110]] [[101, 110]] [101, 110] (by decide)

/-- C1: among the language-matching candidates achieving the maximum score
against the user preference that produced the match, both matchers return the
candidate appearing earliest in the original available order: the returned
candidate scores at least as high as every language-matching candidate, and
strictly higher than every language-matching candidate at a smaller index.  In
particular, for a two-element available list [A, B] whose elements both match
the preference's language with equal scores the result is A, and for [B, A]
with the same field values it is B. -/
theorem c1_tie_break_earliest :
    (∀ (p : List Nat → Option LanguageTag) (avail user : List (List Nat)) (v : List Nat),
      bcp47.best_matching_locale p avail user = some v →
      ∃ (ut : LanguageTag) (i : Nat) (t : LanguageTag),
        (∃ u ∈ user, p u = some ut) ∧
        (bcp47.available_tags p avail).get? i = some (v, t) ∧
        (t.primary_language == ut.primary_language) = true ∧
        (∀ j w tw, (bcp47.available_tags p avail).get? j = some (w, tw) →
          (tw.primary_language == ut.primary_language) = true →
          bcp47Score tw ut ≤ bcp47Score t ut ∧
            (j < i → bcp47Score tw ut < bcp47Score t ut))) ∧
    (∀ (avail user : List (List Nat)) (v : List Nat),
      posix.best_matching_locale avail user = some v →
      ∃ (u : List Nat) (i : Nat),
        u ∈ user ∧
        (posix.available_parsed_locales avail).get? i = some (PosixLocale.parse v) ∧
        asciiCaseEq ((PosixLocale.parse v).language)
          ((PosixLocale.parse u).language) = true ∧
        (∀ j al, (posix.available_parsed_locales avail).get? j = some al →
          asciiCaseEq al.language ((PosixLocale.parse u).language) = true →
          posixScore al (PosixLocale.parse u) ≤
            posixScore (PosixLocale.parse v) (PosixLocale.parse u) ∧
            (j < i → posixScore al (PosixLocale.parse u) <
              posixScore (PosixLocale.parse v) (PosixLocale.parse u)))) ∧
    (∀ (p : List Nat → Option LanguageTag) (A B u : List Nat) (ut tA tB : LanguageTag),
      p u = some ut → p A = some tA → p B = some tB →
      (tA.primary_language == ut.primary_language) = true →
      (tB.primary_language == ut.primary_language) = true →
      bcp47Score tA ut = bcp47Score tB ut →
      bcp47.best_matching_locale p [A, B] [u] = some A ∧
        bcp47.best_matching_locale p [B, A] [u] = some B) ∧
    (∀ A B u : List Nat,
      asciiCaseEq ((PosixLocale.parse A).language)
        ((PosixLocale.parse u).language) = true →
      asciiCaseEq ((PosixLocale.parse B).language)
        ((PosixLocale.parse u).language) = true →
      posixScore (PosixLocale.parse A) (PosixLocale.parse u) =
        posixScore (PosixLocale.parse B) (PosixLocale.parse u) →
      posix.best_matching_locale [A, B] [u] = some A ∧
        posix.best_matching_locale [B, A] [u] = some B) := by
  refine ⟨?_, ?_, ?_, ?_⟩
  · intro p avail user v h
    obtain ⟨u, ut, i, t, hu, hpu, hget, _, _, hpred, hall⟩ :=
      bcp47_best_spec p avail user v h
    exact ⟨ut, i, t, ⟨u, hu, hpu⟩, hget, hpred, hall⟩
  · intro avail user v h
    obtain ⟨u, i, hu, _, hget, _, hlang, hall⟩ := posix_best_spec avail user v h
    exact ⟨u, i, hu, hget, hlang, hall⟩
  · intro p A B u ut tA tB hu hA hB hpA hpB hsc
    have huser : List.filterMap p [u] = [ut] := by simp [List.filterMap_cons, hu]
    constructor
    · have havail : bcp47.available_tags p [A, B] = [(A, tA), (B, tB)] := by
        unfold bcp47.available_tags
        simp [List.filterMap_cons, hA, hB]
      unfold bcp47.best_matching_locale
      rw [havail, huser, List.findSome?_cons,
        show bcp47.selectFor ut [(A, tA), (B, tB)] = some 0 from
          selectIdx_pair _ _ (A, tA) (B, tB) hpA hpB (Nat.le_of_eq hsc.symm)]
      rfl
    · have havail : bcp47.available_tags p [B, A] = [(B, tB), (A, tA)] := by
        unfold bcp47.available_tags
        simp [List.filterMap_cons, hA, hB]
      unfold bcp47.best_matching_locale
      rw [havail, huser, List.findSome?_cons,
        show bcp47.selectFor ut [(B, tB), (A, tA)] = some 0 from
          selectIdx_pair _ _ (B, tB) (A, tA) hpB hpA (Nat.le_of_eq hsc)]
      rfl
  · intro A B u hpA hpB hsc
    constructor
    · unfold posix.best_matching_locale
      rw [show posix.available_parsed_locales [A, B] =
          [PosixLocale.parse A, PosixLocale.parse B] from rfl,
        show List.map PosixLocale.parse [u] = [PosixLocale.parse u] from rfl,
        List.findSome?_cons,
        show posix.selectFor (PosixLocale.parse u)
            [PosixLocale.parse A, PosixLocale.parse B] = some 0 from
          selectIdx_pair _ _ (PosixLocale.parse A) (PosixLocale.parse B) hpA hpB
            (Nat.le_of_eq hsc.symm)]
      rfl
    · unfold posix.best_matching_locale
      rw [show posix.available_parsed_locales [B, A] =
          [PosixLocale.parse B, PosixLocale.parse A] from rfl,
        show List.map PosixLocale.parse [u] = [PosixLocale.parse u] from rfl,
        List.findSome?_cons,
        show posix.selectFor (PosixLocale.parse u)
            [PosixLocale.parse B, PosixLocale.parse A] = some 0 from
          selectIdx_pair _ _ (PosixLocale.parse B) (PosixLocale.parse A) hpB hpA
            (Nat.le_of_eq hsc)]
      rfl

theorem c1_witness :
    posix.best_matching_locale [[69, 78], [101, 110]] [[101, 110]] = some [69, 78] ∧
    posix.best_matching_locale [[101, 110], [69, 78]] [[101, 110]] = some [101, 110] :=
  c1_tie_break_earliest.2.2.2 [69, 78] [101, 110] [101, 110]
    (by decide) (by decide) (by decide)
